import Mathlib

/-!
Shallow embedding of the `bsp` crate (`src/lib.rs`): a reader/writer for the
BSP lump-directory container format.  The on-disk layout (`Header`,
`LumpDef`, `LumpMetadata`), the parse entry point (`Bsp::parse`), the
per-lump access paths (`lump`, `lump_mut`, `lump_cast`, `lump_cast_mut`,
`lump_cell`) and the write-back path (`write_to_io`) are translated into
executable Lean definitions.  Machine integers are modelled as `Nat` with
explicit `% 2^32` where the Rust code performs an `as u32` conversion;
byte buffers are `List Nat` with values below 256.  Rust panics
(`assert!` failures and `RefCell` borrow failures) are modelled by a
distinguished `panicked` outcome, kept separate from returned error
values (`Result::Err`).
-/

/-- Lump slot count `LUMP_DEF_COUNT` from the source: the fixed number of lump slots. -/
def LUMP_DEF_COUNT : Nat := 64

/-- Byte size of the header, `size_of::<Header>()`: 4 (identifier) + 4 (version) + 64 * 16 (lump
definitions, each 4 + 4 + 4 + 4 bytes) + 4 (revision) = 1036 bytes.
All fields are 4-byte aligned `repr(C)` with no padding. -/
def HEADER_SIZE : Nat := 1036

/-- The modulus `2 ^ 32` of Rust `u32` arithmetic. -/
def U32_MOD : Nat := 4294967296

/-- Little-endian encoding of a `u32` value into four bytes, as produced by
`zerocopy`'s `IntoBytes` for a `u32` field. -/
def u32ToLe (n : Nat) : List Nat :=
  [n % 256, n / 256 % 256, n / 65536 % 256, n / 16777216 % 256]

/-- Little-endian decoding of four bytes into a `u32` value, as performed by
`zerocopy`'s `FromBytes` for a `u32` field. -/
def leToU32 : List Nat → Nat
  | [a, b, c, d] => a + 256 * b + 65536 * c + 16777216 * d
  | _ => 0

/-- Record `LumpMetadata`: lump version (`u32`) and 4-byte identifier tag. -/
structure LumpMetadata where
  version : Nat
  identifier : List Nat
deriving DecidableEq, Inhabited

/-- Record `LumpDef`: absolute file offset (`u32`), byte length (`u32`) and
embedded metadata. -/
structure LumpDef where
  offset : Nat
  length : Nat
  metadata : LumpMetadata
deriving DecidableEq, Inhabited

/-- Record `Header`: 4-byte format identifier, `u32` version, 64 lump
definitions and an `i32` revision (modelled by its 32-bit pattern). -/
structure Header where
  identifier : List Nat
  version : Nat
  lumpDefs : List LumpDef
  revision : Nat
deriving DecidableEq, Inhabited

/-- Byte image of one `LumpDef` (16 bytes). -/
def encodeLumpDef (d : LumpDef) : List Nat :=
  u32ToLe d.offset ++ u32ToLe d.length ++ u32ToLe d.metadata.version ++ d.metadata.identifier

/-- Byte image of a list of lump definitions, laid out consecutively. -/
def encodeDefs : List LumpDef → List Nat
  | [] => []
  | d :: rest => encodeLumpDef d ++ encodeDefs rest

/-- Byte image of a `Header` (`header.as_bytes()` in `write_to_io`):
identifier, version, the 64 lump definitions, revision — `repr(C)`,
little-endian, no padding. -/
def encodeHeader (h : Header) : List Nat :=
  h.identifier ++ u32ToLe h.version ++ encodeDefs h.lumpDefs ++ u32ToLe h.revision

/-- Decode one 16-byte `LumpDef` image. -/
def decodeLumpDef (bs : List Nat) : LumpDef :=
  { offset := leToU32 (bs.take 4)
    length := leToU32 ((bs.drop 4).take 4)
    metadata :=
      { version := leToU32 ((bs.drop 8).take 4)
        identifier := (bs.drop 12).take 4 } }

/-- Decode `n` consecutive 16-byte `LumpDef` images. -/
def decodeDefs : Nat → List Nat → List LumpDef
  | 0, _ => []
  | n + 1, bs => decodeLumpDef (bs.take 16) :: decodeDefs n (bs.drop 16)

/-- Models `Header::ref_from_prefix`: succeeds when the buffer holds at least
`HEADER_SIZE` bytes, yielding the decoded header and the remaining suffix.
(The address-alignment precondition of `zerocopy` is a memory-layout
property with no counterpart over `List Nat` and is not modelled.) -/
def decodeHeader (data : List Nat) : Option (Header × List Nat) :=
  if HEADER_SIZE ≤ data.length then
    some ({ identifier := data.take 4
            version := leToU32 ((data.drop 4).take 4)
            lumpDefs := decodeDefs LUMP_DEF_COUNT (data.drop 8)
            revision := leToU32 ((data.drop 1032).take 4) },
          data.drop HEADER_SIZE)
  else none

/-- Payload state of one lump (the source wraps it in a byte `Cow`):
either still borrowed from the
post-header remainder of the input buffer (recorded by local offset and
length), or an owned private copy. -/
inductive CowBytes where
  | borrowed (off len : Nat)
  | owned (bs : List Nat)
deriving DecidableEq, Inhabited

/-- The bytes a `CowBytes` value denotes, given the post-header remainder
`data` of the input buffer it may borrow from. -/
def CowBytes.observe (data : List Nat) : CowBytes → List Nat
  | .borrowed off len => (data.drop off).take len
  | .owned bs => bs

/-- The dynamic borrow flag of a `RefCell`: free, shared by `n` readers, or
exclusively (mutably) borrowed. -/
inductive BorrowState where
  | free
  | reading (n : Nat)
  | writing
deriving DecidableEq, Inhabited

/-- One `LumpCell`: a `RefCell<(Cow<LumpMetadata>, Cow<[u8]>)>`. -/
structure Slot where
  metadata : LumpMetadata
  bytes : CowBytes
  borrow : BorrowState
deriving DecidableEq, Inhabited

/-- The `Bsp` aggregate: header plus the 64 lump cells (`lumps.length = 64`
for every value produced by `parse`). -/
structure Bsp where
  header : Header
  lumps : List Slot
deriving DecidableEq, Inhabited

/-- Outcome of `Bsp::parse`: a directory, a returned `CastError` value
(header shorter than the buffer), or a panic (the `assert!` on lump
bounds). -/
inductive ParseResult where
  | ok (b : Bsp)
  | err
  | panicked
deriving DecidableEq

/-- The `assert!((offset + length) <= data.len())` condition checked for
each lump definition during parse, after the saturating offset
adjustment. -/
def lumpInBounds (restLen : Nat) (d : LumpDef) : Bool :=
  d.offset - HEADER_SIZE + d.length ≤ restLen

/-- The slot built for one lump definition at parse time: borrowed
metadata and a borrowed byte range at local offset
`offset.saturating_sub(HEADER_SIZE)` (Nat subtraction is saturating)
spanning `length` bytes; the cell starts unborrowed. -/
def mkSlot (d : LumpDef) : Slot :=
  { metadata := d.metadata
    bytes := .borrowed (d.offset - HEADER_SIZE) d.length
    borrow := .free }

/-- Models `Bsp::parse`: decode the header from the buffer prefix (error value on
failure), then slice each lump out of the remainder; any out-of-bounds
lump definition fires the `assert!`, i.e. panics. -/
def parse (file : List Nat) : ParseResult :=
  match decodeHeader file with
  | none => .err
  | some (h, rest) =>
    if h.lumpDefs.all (lumpInBounds rest.length) then
      .ok { header := h, lumps := h.lumpDefs.map mkSlot }
    else .panicked

/-- The fold inside `write_to_io` that rewrites the cloned header's lump
definitions: `def.offset = acc as u32`, `def.length = data.len() as u32`,
`def.metadata = *metadata`, next accumulator
`def.offset as usize + def.length as usize`.  The zip stops at the
shorter of the two lists, leaving surplus definitions untouched. -/
def updateDefs (data : List Nat) : List Slot → List LumpDef → Nat → List LumpDef
  | s :: srest, _d :: drest, acc =>
    let off := acc % U32_MOD
    let len := (s.bytes.observe data).length % U32_MOD
    { offset := off, length := len, metadata := s.metadata }
      :: updateDefs data srest drest (off + len)
  | _, defs, _ => defs

/-- The lump definitions written into the output header by `write_to_io`,
starting the running cursor at `HEADER_SIZE`. -/
def outDefs (data : List Nat) (b : Bsp) : List LumpDef :=
  updateDefs data b.lumps b.header.lumpDefs HEADER_SIZE

/-- The lump payloads emitted after the header by `write_to_io`, in slot
order, contiguously. -/
def lumpsBytes (data : List Nat) : List Slot → List Nat
  | [] => []
  | s :: rest => s.bytes.observe data ++ lumpsBytes data rest

/-- The full byte stream emitted by `write_to_io`: the cloned header with
recomputed lump definitions, followed by every lump's current bytes. -/
def writeBytes (data : List Nat) (b : Bsp) : List Nat :=
  encodeHeader { b.header with lumpDefs := outDefs data b } ++ lumpsBytes data b.lumps

/-- Outcome of an operation that either returns a value or panics
(`assert!` failure or `RefCell` borrow failure).  There is no error-value
constructor because the corresponding source functions return their
result directly, not a `Result`. -/
inductive AccessOut (α : Type) where
  | ok (a : α)
  | panicked
deriving DecidableEq

/-- Replace slot `i` of the directory (leaves the directory unchanged when
`i` is out of range of the slot list). -/
def withSlot (b : Bsp) (i : Nat) (s : Slot) : Bsp :=
  { b with lumps := b.lumps.set i s }

/-- Models `Bsp::lump`: assert `index < LUMP_DEF_COUNT` (panic otherwise), then
`RefCell::borrow` (panic while a mutable borrow is outstanding), returning
the guard's view and the directory with the reader count bumped. -/
def lumpAcq (b : Bsp) (i : Nat) : AccessOut (LumpMetadata × CowBytes × Bsp) :=
  if i < LUMP_DEF_COUNT then
    let s := b.lumps.getD i default
    match s.borrow with
    | .writing => .panicked
    | .free => .ok (s.metadata, s.bytes, withSlot b i { s with borrow := .reading 1 })
    | .reading n => .ok (s.metadata, s.bytes, withSlot b i { s with borrow := .reading (n + 1) })
  else .panicked

/-- Models `Bsp::lump_mut`: assert `index < LUMP_DEF_COUNT` (panic otherwise),
then `RefCell::borrow_mut` (panic unless the cell is free), returning the
guard's view and the directory with the cell marked exclusively
borrowed. -/
def lumpMutAcq (b : Bsp) (i : Nat) : AccessOut (LumpMetadata × CowBytes × Bsp) :=
  if i < LUMP_DEF_COUNT then
    let s := b.lumps.getD i default
    match s.borrow with
    | .free => .ok (s.metadata, s.bytes, withSlot b i { s with borrow := .writing })
    | _ => .panicked
  else .panicked

/-- Outcome of a typed cast: a typed view, a returned `CastError` value, or
a panic (index assertion or borrow conflict). -/
inductive CastOut (α : Type) where
  | ok (a : α)
  | err
  | panicked
deriving DecidableEq

/-- Models `Bsp::lump_cast` for a fixed-size target type of byte size `tsize`:
after the index assertion and the shared borrow, `T::ref_from_bytes`
succeeds exactly when the lump's byte length equals `size_of::<T>()`
and fails with a `CastError` value otherwise.  (Address alignment of the
byte slice is a memory-layout property and is not modelled.) -/
def lumpCast (data : List Nat) (b : Bsp) (tsize : Nat) (i : Nat) : CastOut (List Nat) :=
  if i < LUMP_DEF_COUNT then
    let s := b.lumps.getD i default
    match s.borrow with
    | .writing => .panicked
    | _ =>
      let bs := s.bytes.observe data
      if bs.length = tsize then .ok bs else .err
  else .panicked

/-- Models `Bsp::lump_cast` for a slice target type `[T]` with element byte size
`esize`: `zerocopy` succeeds exactly when the lump's byte length is a
whole multiple of the element size. -/
def lumpCastSlice (data : List Nat) (b : Bsp) (esize : Nat) (i : Nat) : CastOut (List Nat) :=
  if i < LUMP_DEF_COUNT then
    let s := b.lumps.getD i default
    match s.borrow with
    | .writing => .panicked
    | _ =>
      let bs := s.bytes.observe data
      if esize ∣ bs.length then .ok bs else .err
  else .panicked

/-- Models `Bsp::lump_cast_mut` for a fixed-size target of byte size `tsize`:
index assertion, exclusive borrow (panic unless free), then
`v.1.to_mut()` — the copy-on-write step, which runs before the cast check
and therefore converts the slot to an owned copy even when the cast
subsequently fails — then `T::mut_from_bytes`, which succeeds exactly
when the byte length equals `size_of::<T>()`.  The returned directory is
the state after the guard (or the failed borrow attempt) is released. -/
def lumpCastMut (data : List Nat) (b : Bsp) (tsize : Nat) (i : Nat) :
    CastOut (List Nat) × Bsp :=
  if i < LUMP_DEF_COUNT then
    let s := b.lumps.getD i default
    match s.borrow with
    | .free =>
      let bs := s.bytes.observe data
      (if bs.length = tsize then .ok bs else .err,
       withSlot b i { s with bytes := .owned bs })
    | _ => (.panicked, b)
  else (.panicked, b)

/-- A caller-side mutation of slot `i` through an outstanding write guard
from `lump_mut`: `Cow::to_mut` copies the currently observed bytes into a
private buffer (copy-on-write) and the caller then rewrites bytes and
metadata; `f` and `g` are the caller's edits.  The state returned is
after the guard is released. -/
def mutateLump (data : List Nat) (b : Bsp) (i : Nat)
    (f : List Nat → List Nat) (g : LumpMetadata → LumpMetadata) : Bsp :=
  let s := b.lumps.getD i default
  withSlot b i
    { s with
      metadata := g s.metadata
      bytes := .owned (f (s.bytes.observe data)) }

/-- The world a directory lives in: the immutably borrowed post-header
remainder of the input buffer, and the directory state. -/
structure World where
  data : List Nat
  bsp : Bsp
deriving DecidableEq

/-- Lifts `mutateLump` to the world: the input buffer is a shared borrow
in the source, so only the directory component can change. -/
def worldMutateLump (w : World) (i : Nat)
    (f : List Nat → List Nat) (g : LumpMetadata → LumpMetadata) : World :=
  { data := w.data, bsp := mutateLump w.data w.bsp i f g }

/-- Models `Bsp::write_to_io` against a sink that accepts at most `cap` bytes and
fails afterwards: the emitted stream is `writeBytes`; the call yields an
`Ok`/`Err` I/O result and, taking `&self`, leaves the world unchanged. -/
def writeOut (w : World) (cap : Nat) : Except Unit Unit × World :=
  (if (writeBytes w.data w.bsp).length ≤ cap then .ok () else .error (), w)

/-- Total byte length of the payloads of a list of slots. -/
def sumLens (data : List Nat) : List Slot → Nat
  | [] => 0
  | s :: rest => (s.bytes.observe data).length + sumLens data rest

/-! ## Concrete inputs used to exercise the model -/

/-- All-zero lump metadata. -/
def zeroMeta : LumpMetadata := ⟨0, [0, 0, 0, 0]⟩

/-- A lump definition for an empty lump at absolute offset 0. -/
def zeroDef : LumpDef := ⟨0, 0, zeroMeta⟩

/-- A minimal header: 64 empty lumps, no payload bytes. -/
def hdr0 : Header := ⟨[86, 66, 83, 80], 1, List.replicate 64 zeroDef, 7⟩

/-- The 1036-byte file holding `hdr0` and no lump data. -/
def file0 : List Nat := encodeHeader hdr0

/-- The directory parsed from `file0`. -/
def bsp0 : Bsp :=
  match parse file0 with
  | .ok b => b
  | _ => default

/-- The post-header remainder of `file0` (empty). -/
def data0 : List Nat := file0.drop HEADER_SIZE

/-- A header whose lump 0 is a 2-byte lump right after the header. -/
def hdr1 : Header :=
  ⟨[86, 66, 83, 80], 1, ⟨1036, 2, ⟨9, [76, 85, 77, 80]⟩⟩ :: List.replicate 63 zeroDef, 7⟩

/-- A 1038-byte file: `hdr1` followed by the two bytes of lump 0. -/
def file1 : List Nat := encodeHeader hdr1 ++ [5, 6]

/-- The directory parsed from `file1`. -/
def bsp1 : Bsp :=
  match parse file1 with
  | .ok b => b
  | _ => default

/-- The post-header remainder of `file1` (`[5, 6]`). -/
def data1 : List Nat := file1.drop HEADER_SIZE

/-- A header whose lump 0 claims one byte that the buffer does not have. -/
def hdrBad : Header := ⟨[86, 66, 83, 80], 1, ⟨0, 1, zeroMeta⟩ :: List.replicate 63 zeroDef, 7⟩

/-- A 1036-byte file whose lump 0 is out of bounds: parse asserts. -/
def fileBad : List Nat := encodeHeader hdrBad

/-- A quiescent slot holding owned bytes `[1, 2]`. -/
def slotFree : Slot := ⟨zeroMeta, .owned [1, 2], .free⟩

/-- A directory with all 64 cells free. -/
def bspF : Bsp := ⟨hdr0, List.replicate 64 slotFree⟩

/-- A directory whose cell 0 has an outstanding write guard. -/
def bspW : Bsp := ⟨hdr0, (List.replicate 64 slotFree).set 0 ⟨zeroMeta, .owned [1, 2], .writing⟩⟩

/-! ## Well-formedness of decoded records -/

/-- A `LumpMetadata` value representable in the wire format. -/
def LumpMetadata.WF (m : LumpMetadata) : Prop :=
  m.version < U32_MOD ∧ m.identifier.length = 4 ∧ ∀ x ∈ m.identifier, x < 256

/-- A `LumpDef` value representable in the wire format. -/
def LumpDef.WF (d : LumpDef) : Prop :=
  d.offset < U32_MOD ∧ d.length < U32_MOD ∧ d.metadata.WF

/-- A `Header` value representable in the wire format. -/
def Header.WF (h : Header) : Prop :=
  h.identifier.length = 4 ∧ (∀ x ∈ h.identifier, x < 256) ∧
    h.version < U32_MOD ∧ h.revision < U32_MOD ∧
    h.lumpDefs.length = LUMP_DEF_COUNT ∧ ∀ d ∈ h.lumpDefs, d.WF

instance : DecidablePred LumpMetadata.WF := fun _ => by
  unfold LumpMetadata.WF; infer_instance

instance : DecidablePred LumpDef.WF := fun _ => by
  unfold LumpDef.WF; infer_instance

instance : DecidablePred Header.WF := fun _ => by
  unfold Header.WF; infer_instance

/-! ## u32 codec lemmas -/

lemma u32ToLe_length (n : Nat) : (u32ToLe n).length = 4 := rfl

lemma leToU32_u32ToLe (n : Nat) (h : n < U32_MOD) : leToU32 (u32ToLe n) = n := by
  simp only [u32ToLe, leToU32, U32_MOD] at *
  omega

lemma u32ToLe_lt (n : Nat) : ∀ x ∈ u32ToLe n, x < 256 := by
  simp only [u32ToLe, List.mem_cons, List.not_mem_nil, or_false]
  rintro x (rfl | rfl | rfl | rfl) <;> omega

lemma leToU32_lt (bs : List Nat) (h4 : bs.length = 4) (hb : ∀ x ∈ bs, x < 256) :
    leToU32 bs < U32_MOD := by
  match bs, h4 with
  | [a, b, c, d], _ =>
    have ha := hb a (by simp)
    have hbb := hb b (by simp)
    have hc := hb c (by simp)
    have hd := hb d (by simp)
    simp only [leToU32, U32_MOD]
    omega

/-! ## getD helpers -/

lemma getD_eq_getElem {α : Type} [Inhabited α] (l : List α) (i : Nat) (h : i < l.length) :
    l.getD i default = l[i] := by
  simp [List.getD_eq_getElem?_getD, List.getElem?_eq_getElem h]

lemma getD_map {α β : Type} [Inhabited α] [Inhabited β] (f : α → β) (l : List α) (i : Nat)
    (h : i < l.length) : (l.map f).getD i default = f (l.getD i default) := by
  rw [getD_eq_getElem _ _ (by simpa using h), getD_eq_getElem _ _ h]
  simp

lemma getD_set_ne {α : Type} [Inhabited α] (l : List α) (i j : Nat) (a : α) (h : i ≠ j) :
    (l.set i a).getD j default = l.getD j default := by
  simp [List.getD_eq_getElem?_getD, List.getElem?_set_ne h]

lemma getD_set_self {α : Type} [Inhabited α] (l : List α) (i : Nat) (a : α)
    (h : i < l.length) : (l.set i a).getD i default = a := by
  simp [List.getD_eq_getElem?_getD, List.getElem?_set_self h]

lemma getD_mem {α : Type} [Inhabited α] (l : List α) (i : Nat) (h : i < l.length) :
    l.getD i default ∈ l := by
  rw [getD_eq_getElem _ _ h]; exact List.getElem_mem h

/-! ## Codec length and round-trip lemmas -/

lemma encodeLumpDef_length (d : LumpDef) (h : d.metadata.identifier.length = 4) :
    (encodeLumpDef d).length = 16 := by
  simp [encodeLumpDef, u32ToLe, h]

lemma encodeDefs_length (defs : List LumpDef)
    (h : ∀ d ∈ defs, d.metadata.identifier.length = 4) :
    (encodeDefs defs).length = 16 * defs.length := by
  induction defs with
  | nil => simp [encodeDefs]
  | cons d rest ih =>
    simp only [encodeDefs, List.length_append, List.length_cons,
      encodeLumpDef_length d (h d (by simp)), ih (fun x hx => h x (by simp [hx]))]
    ring

lemma encodeHeader_length (h : Header) (hwf : h.WF) :
    (encodeHeader h).length = HEADER_SIZE := by
  obtain ⟨hid, -, -, -, hdefs, hwfd⟩ := hwf
  simp only [encodeHeader, List.length_append, hid, u32ToLe_length,
    encodeDefs_length h.lumpDefs (fun d hd => (hwfd d hd).2.2.2.1), hdefs,
    LUMP_DEF_COUNT, HEADER_SIZE]

lemma decodeLumpDef_encode (d : LumpDef) (hwf : d.WF) (rest : List Nat) :
    decodeLumpDef (encodeLumpDef d ++ rest) = d := by
  obtain ⟨ho, hl, hm, hi, -⟩ := hwf
  have hol := u32ToLe_length d.offset
  have hll := u32ToLe_length d.length
  have hml := u32ToLe_length d.metadata.version
  have hsplit : encodeLumpDef d ++ rest =
      u32ToLe d.offset ++ (u32ToLe d.length ++ (u32ToLe d.metadata.version ++
        (d.metadata.identifier ++ rest))) := by
    simp [encodeLumpDef]
  have e4 : (encodeLumpDef d ++ rest).drop 4 =
      u32ToLe d.length ++ (u32ToLe d.metadata.version ++ (d.metadata.identifier ++ rest)) := by
    rw [hsplit, List.drop_left' hol]
  have e8 : (encodeLumpDef d ++ rest).drop 8 =
      u32ToLe d.metadata.version ++ (d.metadata.identifier ++ rest) := by
    rw [show (8 : Nat) = 4 + 4 from rfl, ← List.drop_drop, e4, List.drop_left' hll]
  have e12 : (encodeLumpDef d ++ rest).drop 12 = d.metadata.identifier ++ rest := by
    rw [show (12 : Nat) = 8 + 4 from rfl, ← List.drop_drop, e8, List.drop_left' hml]
  rw [decodeLumpDef, hsplit, List.take_left' hol, ← hsplit, e4, e8, e12,
    List.take_left' hll, List.take_left' hml, List.take_left' hi,
    leToU32_u32ToLe _ ho, leToU32_u32ToLe _ hl, leToU32_u32ToLe _ hm]

lemma decodeLumpDef_encodeSelf (d : LumpDef) (hwf : d.WF) :
    decodeLumpDef (encodeLumpDef d) = d := by
  have := decodeLumpDef_encode d hwf []
  simpa using this

lemma decodeDefs_encode (defs : List LumpDef) (rest : List Nat)
    (hwf : ∀ d ∈ defs, d.WF) :
    decodeDefs defs.length (encodeDefs defs ++ rest) = defs := by
  induction defs generalizing rest with
  | nil => simp [decodeDefs]
  | cons d drest ih =>
    have hd : d.WF := hwf d (by simp)
    have h16 : (encodeLumpDef d).length = 16 := encodeLumpDef_length d hd.2.2.2.1
    have hstream : encodeDefs (d :: drest) ++ rest =
        encodeLumpDef d ++ (encodeDefs drest ++ rest) := by
      simp [encodeDefs]
    simp only [List.length_cons, decodeDefs, hstream]
    rw [List.take_left' h16, List.drop_left' h16, decodeLumpDef_encodeSelf d hd,
      ih rest (fun x hx => hwf x (by simp [hx]))]

lemma decodeDefs_length (n : Nat) (bs : List Nat) : (decodeDefs n bs).length = n := by
  induction n generalizing bs with
  | zero => simp [decodeDefs]
  | succ k ih => simp [decodeDefs, ih]

lemma decodeHeader_encode (h : Header) (hwf : Header.WF h) (rest : List Nat) :
    decodeHeader (encodeHeader h ++ rest) = some (h, rest) := by
  have hlen := encodeHeader_length h hwf
  obtain ⟨hid, -, hv, hr, hdefs, hwfd⟩ := hwf
  have hvl := u32ToLe_length h.version
  have hdl : (encodeDefs h.lumpDefs).length = 1024 := by
    rw [encodeDefs_length h.lumpDefs (fun d hd => (hwfd d hd).2.2.2.1), hdefs]
    rfl
  have hsplit : encodeHeader h ++ rest =
      h.identifier ++ (u32ToLe h.version ++
        (encodeDefs h.lumpDefs ++ (u32ToLe h.revision ++ rest))) := by
    simp [encodeHeader]
  have e4 : (encodeHeader h ++ rest).drop 4 =
      u32ToLe h.version ++ (encodeDefs h.lumpDefs ++ (u32ToLe h.revision ++ rest)) := by
    rw [hsplit, List.drop_left' hid]
  have e8 : (encodeHeader h ++ rest).drop 8 =
      encodeDefs h.lumpDefs ++ (u32ToLe h.revision ++ rest) := by
    rw [show (8 : Nat) = 4 + 4 from rfl, ← List.drop_drop, e4, List.drop_left' hvl]
  have e1032 : (encodeHeader h ++ rest).drop 1032 = u32ToLe h.revision ++ rest := by
    rw [show (1032 : Nat) = 8 + 1024 from rfl, ← List.drop_drop, e8, List.drop_left' hdl]
  have e1036 : (encodeHeader h ++ rest).drop HEADER_SIZE = rest := List.drop_left' hlen
  have hdd : decodeDefs LUMP_DEF_COUNT ((encodeHeader h ++ rest).drop 8) = h.lumpDefs := by
    rw [e8, ← hdefs]
    exact decodeDefs_encode h.lumpDefs _ hwfd
  rw [decodeHeader, if_pos (by rw [List.length_append, hlen]; exact Nat.le_add_right _ _)]
  rw [hsplit, List.take_left' hid, ← hsplit, e4, e1032, hdd,
    List.take_left' hvl, List.take_left' (u32ToLe_length h.revision),
    leToU32_u32ToLe _ hv, leToU32_u32ToLe _ hr, e1036]

/-! ## Well-formedness of decoded values -/

lemma decodeLumpDef_wf (bs : List Nat) (h16 : 16 ≤ bs.length)
    (hb : ∀ x ∈ bs, x < 256) : (decodeLumpDef bs).WF := by
  have htd : ∀ k : Nat, k + 4 ≤ bs.length → ((bs.drop k).take 4).length = 4 := by
    intro k hk
    simp only [List.length_take, List.length_drop]
    omega
  have hmem : ∀ k : Nat, ∀ x ∈ (bs.drop k).take 4, x < 256 := fun k x hx =>
    hb x (List.mem_of_mem_drop (List.mem_of_mem_take hx))
  have ht0 : (bs.take 4).length = 4 := by
    simpa using htd 0 (by omega)
  have hm0 : ∀ x ∈ bs.take 4, x < 256 := fun x hx => hb x (List.mem_of_mem_take hx)
  refine ⟨leToU32_lt _ ht0 hm0, leToU32_lt _ (htd 4 (by omega)) (hmem 4), leToU32_lt _ (htd 8 (by omega)) (hmem 8), htd 12 (by omega), hmem 12⟩

lemma decodeDefs_wf (n : Nat) (bs : List Nat) (hlen : 16 * n ≤ bs.length)
    (hb : ∀ x ∈ bs, x < 256) : ∀ d ∈ decodeDefs n bs, d.WF := by
  induction n generalizing bs with
  | zero => simp [decodeDefs]
  | succ k ih =>
    intro d hd
    simp only [decodeDefs, List.mem_cons] at hd
    rcases hd with rfl | hd
    · exact decodeLumpDef_wf _ (by simp only [List.length_take]; omega)
        (fun x hx => hb x (List.mem_of_mem_take hx))
    · exact ih (bs.drop 16) (by simp only [List.length_drop]; omega)
        (fun x hx => hb x (List.mem_of_mem_drop hx)) d hd

lemma decodeHeader_elim (data : List Nat) (h : Header) (rest : List Nat)
    (hd : decodeHeader data = some (h, rest)) :
    HEADER_SIZE ≤ data.length ∧ rest = data.drop HEADER_SIZE ∧
      h.lumpDefs.length = LUMP_DEF_COUNT := by
  rw [decodeHeader] at hd
  split at hd
  · next hle =>
    injection hd with hd
    injection hd with h1 h2
    refine ⟨hle, h2.symm, ?_⟩
    rw [← h1]
    exact decodeDefs_length _ _
  · cases hd

lemma decodeHeader_wf (data : List Nat) (h : Header) (rest : List Nat)
    (hb : ∀ x ∈ data, x < 256) (hd : decodeHeader data = some (h, rest)) :
    h.WF := by
  rw [decodeHeader] at hd
  split at hd
  · next hle =>
    injection hd with hd
    injection hd with h1 _h2
    have hsz : HEADER_SIZE = 1036 := rfl
    rw [hsz] at hle
    subst h1
    refine ⟨?_, ?_, ?_, ?_, decodeDefs_length _ _, ?_⟩
    · simp only [List.length_take]; omega
    · exact fun x hx => hb x (List.mem_of_mem_take hx)
    · refine leToU32_lt _ (by simp only [List.length_take, List.length_drop]; omega)
        (fun x hx => hb x (List.mem_of_mem_drop (List.mem_of_mem_take hx)))
    · refine leToU32_lt _ (by simp only [List.length_take, List.length_drop]; omega)
        (fun x hx => hb x (List.mem_of_mem_drop (List.mem_of_mem_take hx)))
    · exact decodeDefs_wf _ _ (by simp only [List.length_drop, LUMP_DEF_COUNT]; omega)
        (fun x hx => hb x (List.mem_of_mem_drop hx))
  · cases hd

/-! ## Lump payload accounting -/


lemma lumpsBytes_length (data : List Nat) (slots : List Slot) :
    (lumpsBytes data slots).length = sumLens data slots := by
  induction slots with
  | nil => rfl
  | cons s rest ih => simp [lumpsBytes, sumLens, ih]

lemma sumLens_take_succ (data : List Nat) (slots : List Slot) (i : Nat)
    (hi : i < slots.length) :
    sumLens data (slots.take (i + 1)) =
      sumLens data (slots.take i) + ((slots.getD i default).bytes.observe data).length := by
  induction slots generalizing i with
  | nil => simp at hi
  | cons s rest ih =>
    cases i with
    | zero => simp [sumLens]
    | succ k =>
      simp only [List.take_succ_cons, sumLens, List.getD_cons_succ]
      rw [ih k (by simpa using hi)]
      omega

lemma sumLens_take_le (data : List Nat) (slots : List Slot) (i : Nat) :
    sumLens data (slots.take i) ≤ sumLens data slots := by
  induction slots generalizing i with
  | nil => simp [sumLens]
  | cons s rest ih =>
    cases i with
    | zero => simp [sumLens]
    | succ k =>
      simp only [List.take_succ_cons, sumLens]
      exact Nat.add_le_add_left (ih k) _

lemma sumLens_take_add_le (data : List Nat) (slots : List Slot) (i : Nat)
    (hi : i < slots.length) :
    sumLens data (slots.take i) + ((slots.getD i default).bytes.observe data).length ≤
      sumLens data slots := by
  rw [← sumLens_take_succ data slots i hi]
  exact sumLens_take_le data slots (i + 1)

lemma lumpsBytes_extract (data : List Nat) (slots : List Slot) (i : Nat)
    (hi : i < slots.length) :
    ((lumpsBytes data slots).drop (sumLens data (slots.take i))).take
        ((slots.getD i default).bytes.observe data).length =
      (slots.getD i default).bytes.observe data := by
  induction slots generalizing i with
  | nil => simp at hi
  | cons s rest ih =>
    cases i with
    | zero =>
      simp only [List.take_zero, sumLens, List.drop_zero, List.getD_cons_zero, lumpsBytes]
      exact List.take_left' rfl
    | succ k =>
      simp only [List.take_succ_cons, sumLens, lumpsBytes, List.getD_cons_succ]
      rw [List.drop_append_eq_append_drop]
      have hlen : (s.bytes.observe data).length ≤
          (s.bytes.observe data).length + sumLens data (rest.take k) := Nat.le_add_right _ _
      rw [List.drop_eq_nil_of_le hlen, List.nil_append,
        show (s.bytes.observe data).length + sumLens data (rest.take k) -
          (s.bytes.observe data).length = sumLens data (rest.take k) by omega]
      exact ih k (by simpa using hi)

/-! ## The write-back fold -/

lemma updateDefs_length (data : List Nat) (slots : List Slot) (defs : List LumpDef)
    (acc : Nat) : (updateDefs data slots defs acc).length = defs.length := by
  induction slots generalizing defs acc with
  | nil => cases defs <;> rfl
  | cons s srest ih =>
    cases defs with
    | nil => rfl
    | cons d drest => simp [updateDefs, ih]

lemma updateDefs_getD (data : List Nat) (slots : List Slot) (defs : List LumpDef)
    (acc : Nat) (i : Nat) (hi : i < slots.length) (hd : i < defs.length)
    (hov : acc + sumLens data slots < U32_MOD) :
    (updateDefs data slots defs acc).getD i default =
      { offset := acc + sumLens data (slots.take i)
        length := ((slots.getD i default).bytes.observe data).length
        metadata := (slots.getD i default).metadata } := by
  induction slots generalizing defs acc i with
  | nil => simp at hi
  | cons s srest ih =>
    cases defs with
    | nil => simp at hd
    | cons d drest =>
      have hslen : (s.bytes.observe data).length ≤ (s.bytes.observe data).length +
          sumLens data srest := Nat.le_add_right _ _
      have hm1 : acc % U32_MOD = acc := Nat.mod_eq_of_lt (by
        simp only [sumLens] at hov; omega)
      have hm2 : (s.bytes.observe data).length % U32_MOD =
          (s.bytes.observe data).length := Nat.mod_eq_of_lt (by
        simp only [sumLens] at hov; omega)
      cases i with
      | zero =>
        simp [updateDefs, hm1, hm2, sumLens]
      | succ k =>
        simp only [updateDefs, List.getD_cons_succ, List.take_succ_cons, sumLens, hm1, hm2]
        rw [ih drest (acc + (s.bytes.observe data).length) k
          (by simpa using hi) (by simpa using hd)
          (by simp only [sumLens] at hov; omega)]
        simp only [LumpDef.mk.injEq, and_true]
        omega

/-! ## Parse elimination -/

lemma parse_ok_elim (file : List Nat) (b : Bsp) (hp : parse file = .ok b) :
    ∃ h rest, decodeHeader file = some (h, rest) ∧
      h.lumpDefs.all (lumpInBounds rest.length) = true ∧
      b = { header := h, lumps := h.lumpDefs.map mkSlot } := by
  rw [parse] at hp
  split at hp
  · cases hp
  · next h rest heq =>
    split at hp
    · next hall =>
      injection hp with hp
      exact ⟨h, rest, heq, hall, hp.symm⟩
    · cases hp

lemma parse_lengths (file : List Nat) (b : Bsp) (hp : parse file = .ok b) :
    b.header.lumpDefs.length = LUMP_DEF_COUNT ∧ b.lumps.length = LUMP_DEF_COUNT := by
  obtain ⟨h, rest, hd, -, rfl⟩ := parse_ok_elim file b hp
  have := (decodeHeader_elim file h rest hd).2.2
  exact ⟨this, by simpa using this⟩

lemma parse_slot (file : List Nat) (b : Bsp) (hp : parse file = .ok b) (i : Nat)
    (hi : i < LUMP_DEF_COUNT) :
    b.lumps.getD i default = mkSlot (b.header.lumpDefs.getD i default) := by
  obtain ⟨h, rest, hd, -, rfl⟩ := parse_ok_elim file b hp
  have hlen := (decodeHeader_elim file h rest hd).2.2
  exact getD_map mkSlot h.lumpDefs i (by omega)

lemma parse_bound (file : List Nat) (b : Bsp) (hp : parse file = .ok b) (i : Nat)
    (hi : i < LUMP_DEF_COUNT) :
    (b.header.lumpDefs.getD i default).offset - HEADER_SIZE +
        (b.header.lumpDefs.getD i default).length ≤
      (file.drop HEADER_SIZE).length := by
  obtain ⟨h, rest, hd, hall, rfl⟩ := parse_ok_elim file b hp
  obtain ⟨-, hrest, hlen⟩ := decodeHeader_elim file h rest hd
  have hmem : h.lumpDefs.getD i default ∈ h.lumpDefs := getD_mem _ _ (by omega)
  have := List.all_eq_true.mp hall _ hmem
  rw [lumpInBounds, decide_eq_true_eq] at this
  simpa [← hrest] using this

lemma observe_borrowed_length (data : List Nat) (off len : Nat)
    (h : off + len ≤ data.length) :
    ((CowBytes.borrowed off len).observe data).length = len := by
  simp only [CowBytes.observe, List.length_take, List.length_drop]
  omega

lemma parse_slot_length (file : List Nat) (b : Bsp) (hp : parse file = .ok b) (i : Nat)
    (hi : i < LUMP_DEF_COUNT) :
    ((b.lumps.getD i default).bytes.observe (file.drop HEADER_SIZE)).length =
      (b.header.lumpDefs.getD i default).length := by
  rw [parse_slot file b hp i hi, mkSlot]
  exact observe_borrowed_length _ _ _ (parse_bound file b hp i hi)

/-! ## Write-back output structure -/

lemma outDefs_length (data : List Nat) (b : Bsp)
    (hdefs : b.header.lumpDefs.length = LUMP_DEF_COUNT) :
    (outDefs data b).length = LUMP_DEF_COUNT := by
  rw [outDefs, updateDefs_length, hdefs]

lemma outHeader_wf (data : List Nat) (b : Bsp)
    (hslots : b.lumps.length = LUMP_DEF_COUNT)
    (hdefs : b.header.lumpDefs.length = LUMP_DEF_COUNT)
    (hid : b.header.identifier.length = 4)
    (hidb : ∀ x ∈ b.header.identifier, x < 256)
    (hv : b.header.version < U32_MOD) (hr : b.header.revision < U32_MOD)
    (hmeta : ∀ i < LUMP_DEF_COUNT, ((b.lumps.getD i default).metadata).WF)
    (hov : HEADER_SIZE + sumLens data b.lumps < U32_MOD) :
    Header.WF { b.header with lumpDefs := outDefs data b } := by
  refine ⟨hid, hidb, hv, hr, outDefs_length data b hdefs, ?_⟩
  show ∀ d ∈ outDefs data b, d.WF
  intro d hmem
  rw [List.mem_iff_getElem] at hmem
  obtain ⟨k, hk, hdk⟩ := hmem
  have hk64 : k < LUMP_DEF_COUNT := by
    have := outDefs_length data b hdefs
    omega
  have hgetD : (outDefs data b).getD k default = d := by
    rw [getD_eq_getElem _ _ hk]
    exact hdk
  rw [outDefs] at hgetD
  rw [updateDefs_getD data b.lumps b.header.lumpDefs HEADER_SIZE k
    (by omega) (by omega) hov] at hgetD
  have hpart := sumLens_take_add_le data b.lumps k (by omega)
  refine ⟨?_, ?_, ?_⟩
  · rw [← hgetD]
    simp only []
    omega
  · rw [← hgetD]
    simp only []
    omega
  · rw [← hgetD]
    exact hmeta k hk64

lemma writeBytes_drop (data : List Nat) (b : Bsp)
    (hwf : Header.WF { b.header with lumpDefs := outDefs data b }) :
    (writeBytes data b).drop HEADER_SIZE = lumpsBytes data b.lumps := by
  rw [writeBytes]
  exact List.drop_left' (encodeHeader_length _ hwf)

lemma parse_writeBytes (data : List Nat) (b : Bsp)
    (hslots : b.lumps.length = LUMP_DEF_COUNT)
    (hdefs : b.header.lumpDefs.length = LUMP_DEF_COUNT)
    (hid : b.header.identifier.length = 4)
    (hidb : ∀ x ∈ b.header.identifier, x < 256)
    (hv : b.header.version < U32_MOD) (hr : b.header.revision < U32_MOD)
    (hmeta : ∀ i < LUMP_DEF_COUNT, ((b.lumps.getD i default).metadata).WF)
    (hov : HEADER_SIZE + sumLens data b.lumps < U32_MOD) :
    parse (writeBytes data b) =
      .ok { header := { b.header with lumpDefs := outDefs data b }
            lumps := (outDefs data b).map mkSlot } := by
  have hwf := outHeader_wf data b hslots hdefs hid hidb hv hr hmeta hov
  have hdec : decodeHeader (writeBytes data b) =
      some ({ b.header with lumpDefs := outDefs data b }, lumpsBytes data b.lumps) := by
    rw [writeBytes]
    exact decodeHeader_encode _ hwf _
  rw [parse, hdec]
  have hall : (outDefs data b).all
      (lumpInBounds (lumpsBytes data b.lumps).length) = true := by
    rw [List.all_eq_true]
    intro d hmem
    rw [List.mem_iff_getElem] at hmem
    obtain ⟨k, hk, hdk⟩ := hmem
    have hk64 : k < LUMP_DEF_COUNT := by
      have := outDefs_length data b hdefs
      omega
    have hgetD : (outDefs data b).getD k default = d := by
      rw [getD_eq_getElem _ _ hk]
      exact hdk
    rw [outDefs] at hgetD
    rw [updateDefs_getD data b.lumps b.header.lumpDefs HEADER_SIZE k
      (by omega) (by omega) hov] at hgetD
    have hpart := sumLens_take_add_le data b.lumps k (by omega)
    rw [lumpInBounds, ← hgetD, decide_eq_true_eq, lumpsBytes_length]
    simp only []
    omega
  simp [hall]

lemma encodeLumpDef_lt (d : LumpDef) (hm : ∀ x ∈ d.metadata.identifier, x < 256) :
    ∀ x ∈ encodeLumpDef d, x < 256 := by
  intro x hx
  rw [encodeLumpDef] at hx
  simp only [List.mem_append] at hx
  rcases hx with ((hx | hx) | hx) | hx
  · exact u32ToLe_lt _ x hx
  · exact u32ToLe_lt _ x hx
  · exact u32ToLe_lt _ x hx
  · exact hm x hx

lemma encodeDefs_lt (defs : List LumpDef)
    (h : ∀ d ∈ defs, ∀ x ∈ d.metadata.identifier, x < 256) :
    ∀ x ∈ encodeDefs defs, x < 256 := by
  induction defs with
  | nil => simp [encodeDefs]
  | cons d rest ih =>
    intro x hx
    rw [encodeDefs] at hx
    rcases List.mem_append.mp hx with hx | hx
    · exact encodeLumpDef_lt d (h d (by simp)) x hx
    · exact ih (fun e he => h e (by simp [he])) x hx

lemma encodeHeader_lt (h : Header) (hid : ∀ x ∈ h.identifier, x < 256)
    (hd : ∀ d ∈ h.lumpDefs, ∀ x ∈ d.metadata.identifier, x < 256) :
    ∀ x ∈ encodeHeader h, x < 256 := by
  intro x hx
  rw [encodeHeader] at hx
  simp only [List.mem_append] at hx
  rcases hx with ((hx | hx) | hx) | hx
  · exact hid x hx
  · exact u32ToLe_lt _ x hx
  · exact encodeDefs_lt _ hd x hx
  · exact u32ToLe_lt _ x hx

/-! ## Claim C1 -/

set_option maxRecDepth 1000000 in
/-- C1 counterexample: `fileBad` decodes to a header whose lump 0 claims one
byte beyond the remaining buffer.  The claim says the whole parse fails by
returning an error value with the process never terminated; the code instead
fires the `assert!` in `Bsp::parse`, i.e. the parse ends in a panic (a
process abort), not in a returned error value (`ParseResult.err` is the
returned-`CastError` outcome and is not produced here). -/
theorem c1_counterexample : parse fileBad = ParseResult.panicked ∧
    parse fileBad ≠ ParseResult.err := by
  have h1 : parse fileBad = ParseResult.panicked := rfl
  rw [h1]
  exact ⟨rfl, by decide⟩

/-- C1 (amended): for every input buffer in which some descriptor's computed
range (offset saturating-minus header size, plus length) exceeds the
remaining buffer after the header, parse fails as a whole by panicking on
the bounds `assert!` — no directory with any populated slot is returned,
but the failure is a process abort, not a returned error value. -/
theorem c1_out_of_bounds_panics (file : List Nat) (h : Header) (rest : List Nat)
    (hd : decodeHeader file = some (h, rest))
    (hbad : ∃ d ∈ h.lumpDefs, rest.length < d.offset - HEADER_SIZE + d.length) :
    parse file = ParseResult.panicked := by
  rw [parse, hd]
  have hfalse : h.lumpDefs.all (lumpInBounds rest.length) = false := by
    obtain ⟨d, hdm, hlt⟩ := hbad
    rw [List.all_eq_false]
    refine ⟨d, hdm, ?_⟩
    rw [lumpInBounds]
    simp only [decide_eq_true_eq, not_le]
    omega
  simp [hfalse]

set_option maxRecDepth 1000000 in
/-- C1 witness: the amended theorem applied to `fileBad`. -/
theorem c1_witness : parse fileBad = ParseResult.panicked := by
  refine c1_out_of_bounds_panics fileBad hdrBad [] ?_ ?_
  · rfl
  · exact ⟨⟨0, 1, zeroMeta⟩, by simp [hdrBad], by simp [HEADER_SIZE, zeroMeta]⟩

/-! ## Claim C2 -/

/-- C2 counterexample: `bspW` has an outstanding write guard on cell 0.  The
claim says a subsequent request for a read or write guard on index 0 fails
with a `BorrowConflict` error value rather than aborting; the code's `lump`
and `lump_mut` return guards directly (no `Result`), and the underlying
`RefCell::borrow` / `borrow_mut` panic on the conflict — an abort, not an
error value (`AccessOut` has no error constructor because the source has no
error path). -/
theorem c2_counterexample :
    lumpAcq bspW 0 = AccessOut.panicked ∧ lumpMutAcq bspW 0 = AccessOut.panicked :=
  ⟨rfl, rfl⟩

/-- C2 (amended): while a write guard for lump index `i` is outstanding, any
subsequent request for a read or write guard on the same index `i` panics
(the runtime borrow check aborts; no `BorrowConflict` error value exists in
the code), and a request for a guard of either kind on a free index
`j ≠ i` succeeds. -/
theorem c2_conflict_panics (b : Bsp) (i j : Nat)
    (hi : i < LUMP_DEF_COUNT) (hj : j < LUMP_DEF_COUNT) (_hne : j ≠ i)
    (hw : (b.lumps.getD i default).borrow = .writing)
    (hf : (b.lumps.getD j default).borrow = .free) :
    lumpAcq b i = .panicked ∧ lumpMutAcq b i = .panicked ∧
      lumpAcq b j = .ok ((b.lumps.getD j default).metadata,
        (b.lumps.getD j default).bytes,
        withSlot b j { b.lumps.getD j default with borrow := .reading 1 }) ∧
      lumpMutAcq b j = .ok ((b.lumps.getD j default).metadata,
        (b.lumps.getD j default).bytes,
        withSlot b j { b.lumps.getD j default with borrow := .writing }) := by
  refine ⟨?_, ?_, ?_, ?_⟩
  · simp only [lumpAcq, if_pos hi, hw]
  · simp only [lumpMutAcq, if_pos hi, hw]
  · simp only [lumpAcq, if_pos hj, hf]
  · simp only [lumpMutAcq, if_pos hj, hf]

/-- C2 witness: the amended theorem applied to `bspW` with `i = 0`,
`j = 1`. -/
theorem c2_witness :
    lumpAcq bspW 0 = .panicked ∧ lumpMutAcq bspW 0 = .panicked ∧
      lumpAcq bspW 1 = .ok ((bspW.lumps.getD 1 default).metadata,
        (bspW.lumps.getD 1 default).bytes,
        withSlot bspW 1 { bspW.lumps.getD 1 default with borrow := .reading 1 }) ∧
      lumpMutAcq bspW 1 = .ok ((bspW.lumps.getD 1 default).metadata,
        (bspW.lumps.getD 1 default).bytes,
        withSlot bspW 1 { bspW.lumps.getD 1 default with borrow := .writing }) :=
  c2_conflict_panics bspW 0 1 (by decide) (by decide) (by decide) rfl rfl

/-! ## Claim C3 -/

/-- C3 counterexample: on the all-free directory `bspF`, requesting a read
guard, a write guard or a typed cast at index 64 panics on the
`assert!(index < LUMP_DEF_COUNT)` in `lump_cell` — an abort, not an
`IndexOutOfRange` error value surfaced to the caller (no such error value
exists in the code). -/
theorem c3_counterexample :
    lumpAcq bspF 64 = AccessOut.panicked ∧
      lumpMutAcq bspF 64 = AccessOut.panicked ∧
      lumpCast [] bspF 4 64 = CastOut.panicked :=
  ⟨rfl, rfl, rfl⟩

/-- C3 (amended): for every index `≥ 64`, requesting a read guard
(`lump`), a write guard (`lump_mut`) or a typed cast (`lump_cast`,
`lump_cast` at a slice type, `lump_cast_mut`) panics on the index
assertion in `lump_cell`; no guard and no error value is ever returned. -/
theorem c3_index_out_of_range_panics (b : Bsp) (data : List Nat)
    (tsize esize i : Nat) (hi : LUMP_DEF_COUNT ≤ i) :
    lumpAcq b i = .panicked ∧ lumpMutAcq b i = .panicked ∧
      lumpCast data b tsize i = .panicked ∧
      lumpCastSlice data b esize i = .panicked ∧
      (lumpCastMut data b tsize i).1 = .panicked := by
  have hni : ¬i < LUMP_DEF_COUNT := by omega
  exact ⟨by simp only [lumpAcq, if_neg hni], by simp only [lumpMutAcq, if_neg hni],
    by simp only [lumpCast, if_neg hni], by simp only [lumpCastSlice, if_neg hni],
    by simp only [lumpCastMut, if_neg hni]⟩

/-- C3 witness: the amended theorem applied to `bspF` at index 64. -/
theorem c3_witness :
    lumpAcq bspF 64 = .panicked ∧ lumpMutAcq bspF 64 = .panicked ∧
      lumpCast [] bspF 4 64 = .panicked ∧
      lumpCastSlice [] bspF 4 64 = .panicked ∧
      (lumpCastMut [] bspF 4 64).1 = .panicked :=
  c3_index_out_of_range_panics bspF [] 4 4 64 (by decide)

/-! ## Claim C4 -/

/-- C4: after write-back, descriptor `i` of the output header has offset
equal to the header size plus the sum of the current byte lengths of lumps
`0..i`, length equal to the current byte length of lump `i`, and metadata
equal to the slot's current metadata — for every header the directory may
carry, i.e. regardless of the offsets and lengths present at parse time
(the hypothesis `hov` keeps the running `u32` cursor below `2^32`, the
regime in which the `as u32` conversions in the fold are lossless). -/
theorem c4_offset_recomputation (data : List Nat) (b : Bsp) (i : Nat)
    (hslots : b.lumps.length = LUMP_DEF_COUNT)
    (hdefs : b.header.lumpDefs.length = LUMP_DEF_COUNT)
    (hi : i < LUMP_DEF_COUNT)
    (hov : HEADER_SIZE + sumLens data b.lumps < U32_MOD) :
    (outDefs data b).getD i default =
      { offset := HEADER_SIZE + sumLens data (b.lumps.take i)
        length := ((b.lumps.getD i default).bytes.observe data).length
        metadata := (b.lumps.getD i default).metadata } := by
  rw [outDefs]
  exact updateDefs_getD data b.lumps b.header.lumpDefs HEADER_SIZE i
    (by omega) (by omega) hov

set_option maxRecDepth 1000000 in
/-- C4 witness: the theorem applied to the directory parsed from `file1`
at index 1 (lump 0 holds two bytes, so the offset of descriptor 1 is the
header size plus two). -/
theorem c4_witness :
    (outDefs data1 bsp1).getD 1 default =
      { offset := HEADER_SIZE + sumLens data1 (bsp1.lumps.take 1)
        length := ((bsp1.lumps.getD 1 default).bytes.observe data1).length
        metadata := (bsp1.lumps.getD 1 default).metadata } :=
  c4_offset_recomputation data1 bsp1 1 (by rfl) (by rfl) (by decide) (by decide)

/-! ## Claim C6 -/

/-- C6: at parse time the lump slice stored in slot `i` starts at local
offset `descriptor.offset` saturating-minus `HEADER_SIZE` within the
post-header remainder and spans exactly `descriptor.length` bytes; a
descriptor whose absolute offset is smaller than the header size is clamped
to local offset 0 rather than rejected. -/
theorem c6_parse_slicing (B : List Nat) (b : Bsp) (i : Nat)
    (hp : parse B = .ok b) (hi : i < LUMP_DEF_COUNT) :
    (b.lumps.getD i default).bytes =
        .borrowed ((b.header.lumpDefs.getD i default).offset - HEADER_SIZE)
          (b.header.lumpDefs.getD i default).length ∧
      (b.lumps.getD i default).bytes.observe (B.drop HEADER_SIZE) =
        ((B.drop HEADER_SIZE).drop
            ((b.header.lumpDefs.getD i default).offset - HEADER_SIZE)).take
          (b.header.lumpDefs.getD i default).length ∧
      ((b.lumps.getD i default).bytes.observe (B.drop HEADER_SIZE)).length =
        (b.header.lumpDefs.getD i default).length ∧
      ((b.header.lumpDefs.getD i default).offset < HEADER_SIZE →
        (b.lumps.getD i default).bytes =
          .borrowed 0 (b.header.lumpDefs.getD i default).length) := by
  have hs := parse_slot B b hp i hi
  refine ⟨by rw [hs]; rfl, by rw [hs]; rfl, parse_slot_length B b hp i hi, ?_⟩
  intro hlt
  rw [hs, mkSlot, Nat.sub_eq_zero_of_le (Nat.le_of_lt hlt)]

set_option maxRecDepth 1000000 in
/-- C6 witness: the theorem applied to `file0` at slot 0, whose descriptor
has absolute offset 0 < 1036 — parse accepts it and clamps the local
offset to 0. -/
theorem c6_witness :
    (bsp0.lumps.getD 0 default).bytes =
        .borrowed ((bsp0.header.lumpDefs.getD 0 default).offset - HEADER_SIZE)
          (bsp0.header.lumpDefs.getD 0 default).length ∧
      (bsp0.header.lumpDefs.getD 0 default).offset < HEADER_SIZE ∧
      (bsp0.lumps.getD 0 default).bytes = .borrowed 0 0 := by
  have h := c6_parse_slicing file0 bsp0 0 (by rfl) (by decide)
  have hlt : (bsp0.header.lumpDefs.getD 0 default).offset < HEADER_SIZE := by decide
  exact ⟨h.1, hlt, by rw [h.2.2.2 hlt]; rfl⟩

/-! ## Claim C7 -/

/-- C7: the input buffer handed to `parse` is never mutated by a directory
operation (it is a shared borrow in the source: operations on the world leave
the buffer component untouched); after the first mutable access to slot `i`
(`Cow::to_mut`), its bytes are a private owned copy whose observed contents
no longer depend on the input buffer; slots never mutably accessed keep
referencing the input bytes via a borrowed range. -/
theorem c7_copy_on_write (B data data2 : List Nat) (b : Bsp) (i : Nat)
    (f : List Nat → List Nat) (g : LumpMetadata → LumpMetadata) :
    (∀ (w : World) (k : Nat) (fk : List Nat → List Nat)
        (gk : LumpMetadata → LumpMetadata),
      (worldMutateLump w k fk gk).data = w.data) ∧
    (parse B = .ok b → i < LUMP_DEF_COUNT →
      (b.lumps.getD i default).bytes =
        .borrowed ((b.header.lumpDefs.getD i default).offset - HEADER_SIZE)
          (b.header.lumpDefs.getD i default).length) ∧
    (i < b.lumps.length →
      ((mutateLump data b i f g).lumps.getD i default).bytes.observe data2 =
        f ((b.lumps.getD i default).bytes.observe data)) := by
  refine ⟨fun w k fk gk => rfl, fun hp hi => by rw [parse_slot B b hp i hi]; rfl, fun hlen => ?_⟩
  rw [show (mutateLump data b i f g).lumps = b.lumps.set i
      { b.lumps.getD i default with
        metadata := g (b.lumps.getD i default).metadata
        bytes := .owned (f ((b.lumps.getD i default).bytes.observe data)) } from rfl,
    getD_set_self _ _ _ hlen]
  rfl

set_option maxRecDepth 1000000 in
/-- C7 witness: on the directory parsed from `file1`, slot 0 is borrowed
from the input after parse, and after a mutable access its observed bytes
are the caller's edit of the old bytes even when observed against a
different (e.g. emptied) input buffer. -/
theorem c7_witness :
    (bsp1.lumps.getD 0 default).bytes =
        .borrowed ((bsp1.header.lumpDefs.getD 0 default).offset - HEADER_SIZE)
          (bsp1.header.lumpDefs.getD 0 default).length ∧
      ((mutateLump data1 bsp1 0 (fun bs => 9 :: bs) id).lumps.getD 0
          default).bytes.observe [] = [9, 5, 6] := by
  have h := c7_copy_on_write file1 data1 [] bsp1 0 (fun bs => 9 :: bs) id
  refine ⟨h.2.1 (by rfl) (by decide), ?_⟩
  rw [h.2.2 (by decide)]
  rfl

/-! ## Claim C8 -/

/-- C8: mutating the bytes or metadata of lump `i` through a write guard
leaves the observed bytes and the metadata of every other lump `j ≠ i`
unchanged. -/
theorem c8_slot_isolation (data data2 : List Nat) (b : Bsp) (i j : Nat)
    (f : List Nat → List Nat) (g : LumpMetadata → LumpMetadata) (hne : i ≠ j) :
    ((mutateLump data b i f g).lumps.getD j default).bytes.observe data2 =
        (b.lumps.getD j default).bytes.observe data2 ∧
      ((mutateLump data b i f g).lumps.getD j default).metadata =
        (b.lumps.getD j default).metadata := by
  have h : (mutateLump data b i f g).lumps.getD j default = b.lumps.getD j default := by
    rw [show (mutateLump data b i f g).lumps = b.lumps.set i
        { b.lumps.getD i default with
          metadata := g (b.lumps.getD i default).metadata
          bytes := .owned (f ((b.lumps.getD i default).bytes.observe data)) } from rfl]
    exact getD_set_ne _ _ _ _ hne
  rw [h]
  exact ⟨rfl, rfl⟩

set_option maxRecDepth 1000000 in
/-- C8 witness: rewriting lump 0 of the directory parsed from `file1`
leaves lump 1's observed bytes and metadata unchanged. -/
theorem c8_witness :
    ((mutateLump data1 bsp1 0 (fun _ => [9]) id).lumps.getD 1
          default).bytes.observe data1 =
        (bsp1.lumps.getD 1 default).bytes.observe data1 ∧
      ((mutateLump data1 bsp1 0 (fun _ => [9]) id).lumps.getD 1
          default).metadata =
        (bsp1.lumps.getD 1 default).metadata :=
  c8_slot_isolation data1 data1 bsp1 0 1 (fun _ => [9]) id (by decide)

/-! ## Claim C10 -/

/-- C10 (implicit): `write_to_io` takes `&self` and only clones the header;
whether the sink accepts the stream or fails, the directory observed after
the call — header, every lump's bytes and metadata — is unchanged, and a
second call emits the identical byte sequence. -/
theorem c10_write_preserves (w : World) (cap cap2 i : Nat) :
    (writeOut w cap).2 = w ∧
      (writeOut w cap).2.bsp.header = w.bsp.header ∧
      (writeOut w cap).2.bsp.lumps.getD i default = w.bsp.lumps.getD i default ∧
      (writeOut ((writeOut w cap).2) cap2).1 =
        (writeOut w cap2).1 ∧
      writeBytes (writeOut w cap).2.data (writeOut w cap).2.bsp =
        writeBytes w.data w.bsp :=
  ⟨rfl, rfl, rfl, rfl, rfl⟩

/-! ## Claim C9 -/

/-- C9: for an in-bounds index whose cell is quiescent, the typed cast of
lump `i` at a fixed-size target of byte size `tsize` succeeds (returning
the lump's bytes) iff the lump's current byte length equals `tsize`
exactly, and otherwise returns a `CastError` value; in particular a lump
one byte shorter or one byte longer than `tsize` yields the error, never a
truncated or padded view.  The mutable cast has the same success
condition, and for a slice-like target of element size `esize` the cast
succeeds iff the byte length is a whole multiple of `esize`. -/
theorem c9_cast_exact (data : List Nat) (b : Bsp) (tsize esize i : Nat)
    (hi : i < LUMP_DEF_COUNT)
    (hfree : (b.lumps.getD i default).borrow = .free) :
    (lumpCast data b tsize i = .ok ((b.lumps.getD i default).bytes.observe data) ↔
      ((b.lumps.getD i default).bytes.observe data).length = tsize) ∧
    (lumpCast data b tsize i = .err ↔
      ((b.lumps.getD i default).bytes.observe data).length ≠ tsize) ∧
    ((lumpCastMut data b tsize i).1 =
        .ok ((b.lumps.getD i default).bytes.observe data) ↔
      ((b.lumps.getD i default).bytes.observe data).length = tsize) ∧
    (((b.lumps.getD i default).bytes.observe data).length + 1 = tsize →
      lumpCast data b tsize i = .err) ∧
    (((b.lumps.getD i default).bytes.observe data).length = tsize + 1 →
      lumpCast data b tsize i = .err) ∧
    (0 < esize →
      (lumpCastSlice data b esize i =
          .ok ((b.lumps.getD i default).bytes.observe data) ↔
        esize ∣ ((b.lumps.getD i default).bytes.observe data).length)) := by
  have hc : lumpCast data b tsize i =
      if ((b.lumps.getD i default).bytes.observe data).length = tsize then
        .ok ((b.lumps.getD i default).bytes.observe data)
      else .err := by
    simp only [lumpCast, if_pos hi, hfree]
  have hcm : (lumpCastMut data b tsize i).1 =
      if ((b.lumps.getD i default).bytes.observe data).length = tsize then
        .ok ((b.lumps.getD i default).bytes.observe data)
      else .err := by
    simp only [lumpCastMut, if_pos hi, hfree]
  have hcs : lumpCastSlice data b esize i =
      if esize ∣ ((b.lumps.getD i default).bytes.observe data).length then
        .ok ((b.lumps.getD i default).bytes.observe data)
      else .err := by
    simp only [lumpCastSlice, if_pos hi, hfree]
  refine ⟨?_, ?_, ?_, ?_, ?_, ?_⟩
  · rw [hc]; split
    · simp_all
    · simp_all
  · rw [hc]; split
    · simp_all
    · simp_all
  · rw [hcm]; split
    · simp_all
    · simp_all
  · intro h1; rw [hc, if_neg (by omega)]
  · intro h1; rw [hc, if_neg (by omega)]
  · intro hpos; rw [hcs]; split
    · simp_all
    · simp_all

set_option maxRecDepth 1000000 in
/-- C9 witness: lump 0 of the directory parsed from `file1` holds two
bytes; a 2-byte cast succeeds, while casts one byte larger and one byte
smaller return the error value. -/
theorem c9_witness :
    (lumpCast data1 bsp1 2 0 =
        .ok ((bsp1.lumps.getD 0 default).bytes.observe data1) ↔
      ((bsp1.lumps.getD 0 default).bytes.observe data1).length = 2) ∧
      lumpCast data1 bsp1 3 0 = .err ∧ lumpCast data1 bsp1 1 0 = .err := by
  have h2 := c9_cast_exact data1 bsp1 2 1 0 (by decide) (by rfl)
  have h3 := c9_cast_exact data1 bsp1 3 1 0 (by decide) (by rfl)
  have h1 := c9_cast_exact data1 bsp1 1 1 0 (by decide) (by rfl)
  exact ⟨h2.1, h3.2.2.2.1 (by rfl), h1.2.2.2.2.1 (by rfl)⟩

/-! ## Claim C5 -/

/-- C5: for any bytes `B` from which parse succeeds, serializing the
directory with no intervening mutations yields bytes that parse
successfully into a directory whose header fields equal the original's
apart from the descriptor offsets (which are re-derived — the descriptor
lengths and metadata are preserved), and whose lump contents and lump
metadata at every index equal the original's.  The hypothesis `hov` keeps
the recomputed `u32` offsets below `2^32` (lossless `as u32` regime). -/
theorem c5_round_trip (B : List Nat) (b : Bsp)
    (hbytes : ∀ x ∈ B, x < 256)
    (hp : parse B = .ok b)
    (hov : HEADER_SIZE + sumLens (B.drop HEADER_SIZE) b.lumps < U32_MOD) :
    ∃ b2, parse (writeBytes (B.drop HEADER_SIZE) b) = .ok b2 ∧
      b2.header.identifier = b.header.identifier ∧
      b2.header.version = b.header.version ∧
      b2.header.revision = b.header.revision ∧
      ∀ i < LUMP_DEF_COUNT,
        (b2.header.lumpDefs.getD i default).length =
          (b.header.lumpDefs.getD i default).length ∧
        (b2.header.lumpDefs.getD i default).metadata =
          (b.header.lumpDefs.getD i default).metadata ∧
        (b2.lumps.getD i default).metadata = (b.lumps.getD i default).metadata ∧
        (b2.lumps.getD i default).bytes.observe
            ((writeBytes (B.drop HEADER_SIZE) b).drop HEADER_SIZE) =
          (b.lumps.getD i default).bytes.observe (B.drop HEADER_SIZE) := by
  obtain ⟨h, rest, hd, -, hb⟩ := parse_ok_elim B b hp
  have hWF := decodeHeader_wf B h rest hbytes hd
  obtain ⟨hid4, hidb, hv, hr, hdlen, hdwf⟩ := hWF
  have hbh : b.header = h := by rw [hb]
  obtain ⟨hdefs, hslots⟩ := parse_lengths B b hp
  have hmeta : ∀ i < LUMP_DEF_COUNT, ((b.lumps.getD i default).metadata).WF := by
    intro i hi
    have hmem : b.header.lumpDefs.getD i default ∈ h.lumpDefs := by
      rw [← hbh]
      exact getD_mem _ _ (by omega)
    rw [parse_slot B b hp i hi]
    exact (hdwf _ hmem).2.2
  have hwf2 := outHeader_wf (B.drop HEADER_SIZE) b hslots hdefs
    (by rw [hbh]; exact hid4) (by rw [hbh]; exact hidb)
    (by rw [hbh]; exact hv) (by rw [hbh]; exact hr) hmeta hov
  have hparse2 := parse_writeBytes (B.drop HEADER_SIZE) b hslots hdefs
    (by rw [hbh]; exact hid4) (by rw [hbh]; exact hidb)
    (by rw [hbh]; exact hv) (by rw [hbh]; exact hr) hmeta hov
  refine ⟨_, hparse2, rfl, rfl, rfl, ?_⟩
  intro i hi
  have hfor : (outDefs (B.drop HEADER_SIZE) b).getD i default =
      { offset := HEADER_SIZE + sumLens (B.drop HEADER_SIZE) (b.lumps.take i)
        length := ((b.lumps.getD i default).bytes.observe (B.drop HEADER_SIZE)).length
        metadata := (b.lumps.getD i default).metadata } := by
    rw [outDefs]
    exact updateDefs_getD _ b.lumps b.header.lumpDefs HEADER_SIZE i
      (by omega) (by omega) hov
  have houtlen : (outDefs (B.drop HEADER_SIZE) b).length = LUMP_DEF_COUNT :=
    outDefs_length _ b hdefs
  have hslot2 : (((outDefs (B.drop HEADER_SIZE) b).map mkSlot).getD i default) =
      mkSlot ((outDefs (B.drop HEADER_SIZE) b).getD i default) :=
    getD_map mkSlot _ i (by omega)
  refine ⟨?_, ?_, ?_, ?_⟩
  · show ((outDefs (B.drop HEADER_SIZE) b).getD i default).length = _
    rw [hfor]
    exact parse_slot_length B b hp i hi
  · show ((outDefs (B.drop HEADER_SIZE) b).getD i default).metadata = _
    rw [hfor, parse_slot B b hp i hi]
    rfl
  · show (((outDefs (B.drop HEADER_SIZE) b).map mkSlot).getD i default).metadata = _
    rw [hslot2, hfor]
    rfl
  · show (((outDefs (B.drop HEADER_SIZE) b).map mkSlot).getD i default).bytes.observe _ = _
    rw [hslot2, hfor, writeBytes_drop _ b hwf2]
    show ((lumpsBytes (B.drop HEADER_SIZE) b.lumps).drop
        (HEADER_SIZE + sumLens (B.drop HEADER_SIZE) (b.lumps.take i) - HEADER_SIZE)).take
        ((b.lumps.getD i default).bytes.observe (B.drop HEADER_SIZE)).length = _
    rw [Nat.add_sub_cancel_left]
    exact lumpsBytes_extract (B.drop HEADER_SIZE) b.lumps i (by omega)

set_option maxRecDepth 1000000 in
/-- C5 witness: the round-trip theorem applied to `file1` and its parsed
directory. -/
theorem c5_witness :
    ∃ b2, parse (writeBytes (file1.drop HEADER_SIZE) bsp1) = .ok b2 ∧
      b2.header.identifier = bsp1.header.identifier ∧
      b2.header.version = bsp1.header.version ∧
      b2.header.revision = bsp1.header.revision ∧
      ∀ i < LUMP_DEF_COUNT,
        (b2.header.lumpDefs.getD i default).length =
          (bsp1.header.lumpDefs.getD i default).length ∧
        (b2.header.lumpDefs.getD i default).metadata =
          (bsp1.header.lumpDefs.getD i default).metadata ∧
        (b2.lumps.getD i default).metadata = (bsp1.lumps.getD i default).metadata ∧
        (b2.lumps.getD i default).bytes.observe
            ((writeBytes (file1.drop HEADER_SIZE) bsp1).drop HEADER_SIZE) =
          (bsp1.lumps.getD i default).bytes.observe (file1.drop HEADER_SIZE) :=
  c5_round_trip file1 bsp1
    (by
      intro x hx
      rw [file1] at hx
      rcases List.mem_append.mp hx with hx | hx
      · exact encodeHeader_lt hdr1 (by decide) (by decide) x hx
      · simp only [List.mem_cons, List.not_mem_nil, or_false] at hx
        rcases hx with rfl | rfl <;> decide)
    (by rfl) (by decide)
